import Mathlib

/-!
Shallow embedding of the core of `KSC_BinaryConverter.py`: the function
`translate_KSC`, which decodes fixed-size 7184-byte field-mill records and
aggregates one-minute (60-block) averages per station.

Modelling conventions:
* a byte is a `Nat` (Python guarantees each byte value is below 256);
* Python `float` values are modelled as exact rationals `ℚ`, and the
  `float('nan')` sentinel written into an output row is modelled as `none`
  in an `Option ℚ` field;
* a raised Python exception (`struct.error` from a wrong-size buffer, or
  `IndexError` from list indexing) is modelled as `Except.error ()`;
* the byte stream handed to `translate_KSC` is modelled as the list of
  chunks returned by successive `f.read(7184)` calls; the final empty read
  that terminates the `while` loop corresponds to the end of the list (an
  explicit empty chunk in the list also stops the loop, like `if chunk:`).
-/

deriving instance DecidableEq for Except

/-- Python slice `chunk[4:10]`, the six time bytes of a block. -/
def timeSlice (c : List Nat) : List Nat :=
  (c.drop 4).take 6

/-- Python slice `chunk2[i*chunk2size : (i+1)*chunk2size]` where
`chunk2 = chunk[16:]` and `chunk2size = 112`: the 112-byte sub-record of
station slot `i` of a block. -/
def subSlice (c : List Nat) (i : Nat) : List Nat :=
  ((c.drop 16).drop (112 * i)).take 112

/-- `struct.unpack('6B', chunk[4:10])`: requires the slice to hold exactly
six bytes, otherwise `struct.error`; yields year, month, day, hour, minute,
second as unsigned bytes. -/
def unpackTime (c : List Nat) : Except Unit (Nat × Nat × Nat × Nat × Nat × Nat) :=
  if (timeSlice c).length = 6 then
    .ok ((timeSlice c).getD 0 0, (timeSlice c).getD 1 0, (timeSlice c).getD 2 0,
         (timeSlice c).getD 3 0, (timeSlice c).getD 4 0, (timeSlice c).getD 5 0)
  else
    .error ()

/-- Two's-complement 16-bit integer from two consecutive bytes (format
character `h`).  The format string `"BB7xB50h2x"` carries no byte-order
prefix, so `struct` decodes in the host's *native* byte order —
little-endian on the machines this program runs on: the first byte of the
pair is the low byte.  (The source's own format documentation declares the
data "Motorola byte order", i.e. big-endian; the missing `>` prefix means
the code does not honour that — see the C4 theorem.)  The `% 256` only
totalizes the function; real bytes are below 256. -/
def toI16 (b0 b1 : Nat) : Int :=
  let v := b0 % 256 + (b1 % 256) * 256
  if v < 32768 then (v : Int) else (v : Int) - 65536

/-- Decode consecutive byte pairs as native-order (little-endian) signed
16-bit integers (`50h` applied to the 100 sample bytes of a sub-record). -/
def samples16 : List Nat → List Int
  | [] => []
  | [_] => []
  | b0 :: b1 :: rest => toI16 b0 b1 :: samples16 rest

/-- Big-endian (Motorola) two's-complement decode of a sample pair,
modelled from the claim's and the source documentation's words: what the
code would compute had the format string carried a `>` prefix.  Used only
to state the byte-order divergence in C4. -/
def toI16be (b0 b1 : Nat) : Int :=
  let v := (b0 % 256) * 256 + b1 % 256
  if v < 32768 then (v : Int) else (v : Int) - 65536

/-- Big-endian counterpart of `samples16`, following the documented
format rather than the code. -/
def samples16be : List Nat → List Int
  | [] => []
  | [_] => []
  | b0 :: b1 :: rest => toI16be b0 b1 :: samples16be rest

/-- `struct.unpack("BB7xB50h2x", sub)`: requires exactly 112 bytes,
otherwise `struct.error`; yields `(address, mode, rain gauge, samples)` —
byte 0, byte 1, byte 9 (7 status bytes skipped), then 50 signed 16-bit
native-order samples from bytes 10..109 (the 2 CRC bytes are skipped). -/
def unpackSub (s : List Nat) : Except Unit (Nat × Nat × Nat × List Int) :=
  if s.length = 112 then
    .ok (s.getD 0 0, s.getD 1 0, s.getD 9 0, samples16 ((s.drop 10).take 100))
  else
    .error ()

/-- Python list indexing `l[i]` for a list of length `n` with a possibly
negative index: indices in `[0, n)` are used directly, indices in `[-n, 0)`
wrap around from the end, anything else raises `IndexError`. -/
def pyIndex (n : Nat) (i : Int) : Except Unit Nat :=
  if 0 ≤ i then
    if i < (n : Int) then .ok i.toNat else .error ()
  else
    if -i ≤ (n : Int) then .ok (n - (-i).toNat) else .error ()

/-- The mutable state of the aggregation loop in `translate_KSC`:
`mill_values` and `mill_counts` (34-element float lists) and
`second_count`. -/
structure AggState where
  mill_values : List ℚ
  mill_counts : List ℚ
  second_count : Nat
  deriving DecidableEq

/-- One row written by `writer.writerow([time] + vals)`: the formatted
timestamp label and the 34 per-station values (`none` is the
`float('nan')` sentinel). -/
structure OutputRow where
  time : String
  vals : List (Option ℚ)
  deriving DecidableEq

/-- Processing of one 112-byte sub-record inside the `for i in range(34)`
loop: unpack it, skip it when `x[1] != 1` (`continue`), otherwise add the
mean of its 50 samples to `mill_values[address-1]` and bump
`mill_counts[address-1]`. -/
def processSub (st : AggState) (s : List Nat) : Except Unit AggState :=
  match unpackSub s with
  | .error e => .error e
  | .ok (address, mode, _rain, smp) =>
    if mode ≠ 1 then .ok st
    else
      match pyIndex 34 ((address : Int) - 1) with
      | .error e => .error e
      | .ok j =>
        .ok { st with
          mill_values := st.mill_values.set j
            (st.mill_values.getD j 0 + (smp.sum : ℚ) / (smp.length : ℚ)),
          mill_counts := st.mill_counts.set j
            (st.mill_counts.getD j 0 + 1) }

/-- The whole `for i in range(34)` loop, folded over the list of sub-record
slices in order; the first raised exception aborts the block. -/
def processAll (st : AggState) : List (List Nat) → Except Unit AggState
  | [] => .ok st
  | s :: rest =>
    match processSub st s with
    | .error e => .error e
    | .ok st1 => processAll st1 rest

/-- `year < 90 ? year + 2000 : year + 1900`: two-digit year pivot. -/
def fixYear (y : Nat) : Nat :=
  if y < 90 then y + 2000 else y + 1900

/-- Zero padding of a decimal number to a given width, as in Python
`"{0:04d}".format` / `"{1:02d}".format`. -/
def padZ (w n : Nat) : String :=
  let s := toString n
  if s.length < w then String.mk (List.replicate (w - s.length) '0') ++ s else s

/-- The label `"{0:04d}-{1:02d}-{2:02d} {3:02d}:{4:02d}"` built from the
pivoted year, month, day, hour and minute of a block. -/
def timeLabel (y mo d h mi : Nat) : String :=
  padZ 4 (fixYear y) ++ "-" ++ padZ 2 mo ++ "-" ++ padZ 2 d ++ " " ++
    padZ 2 h ++ ":" ++ padZ 2 mi

/-- `mill_counts = [0. for i in range(34)]; mill_values = [...]`: the
accumulator reset executed at the top of the loop when `second_count == 0`. -/
def resetAccum (st : AggState) : AggState :=
  { st with mill_values := List.replicate 34 0, mill_counts := List.replicate 34 0 }

/-- `[mill_values[i]/mill_counts[i] if mill_counts[i] > 0 else float('nan')
for i in range(len(mill_values))]`: the 34 averaged station values of an
emitted row (`len(mill_values)` is 34 throughout, since the list is created
with 34 elements and only updated element-wise). -/
def emitVals (st : AggState) : List (Option ℚ) :=
  (List.range st.mill_values.length).map fun i =>
    if 0 < st.mill_counts.getD i 0
    then some (st.mill_values.getD i 0 / st.mill_counts.getD i 0)
    else none

/-- One iteration of the `while True` loop for a non-empty chunk: reset the
accumulators when `second_count == 0`, unpack the time bytes, run the
34-station loop, bump `second_count`, and when it reaches 60 emit a row
built from the current chunk's time label and reset `second_count` to 0.
The Python `time` variable is only ever read in the same iteration that
wrote it, so it is not part of the carried state. -/
def stepChunk (st0 : AggState) (c : List Nat) : Except Unit (AggState × Option OutputRow) :=
  let st1 := if st0.second_count = 0 then resetAccum st0 else st0
  match unpackTime c with
  | .error e => .error e
  | .ok (y, mo, d, h, mi, _s) =>
    let time := timeLabel y mo d h mi
    match processAll st1 ((List.range 34).map (subSlice c)) with
    | .error e => .error e
    | .ok st2 =>
      let st3 := { st2 with second_count := st2.second_count + 1 }
      if st3.second_count = 60 then
        .ok ({ st3 with second_count := 0 }, some ⟨time, emitVals st3⟩)
      else
        .ok (st3, none)

/-- The `while True` loop over the successive chunks of a file: stop at the
end of the stream or at an empty chunk (`if chunk: ... else: break`), abort
on a raised exception (second component `false`), and collect the rows
handed to the csv writer in order. -/
def runLoop (st : AggState) : List (List Nat) → List OutputRow × Bool
  | [] => ([], true)
  | c :: rest =>
    if c.length = 0 then ([], true)
    else
      match stepChunk st c with
      | .error _ => ([], false)
      | .ok (st1, r) =>
        let res := runLoop st1 rest
        (match r with
         | none => res.1
         | some row => row :: res.1, res.2)

/-- The entry state of `translate_KSC`: `second_count = 0`; the accumulator
lists do not exist yet in the Python code (they are created by the first
iteration's reset), so their initial content is irrelevant and chosen as
zeros. -/
def initState : AggState :=
  { mill_values := List.replicate 34 0, mill_counts := List.replicate 34 0,
    second_count := 0 }

/-- `translate_KSC(infile, writer)` on the chunk list of a file: the emitted
rows in order, and whether the loop finished without an exception. -/
def translate_KSC (chunks : List (List Nat)) : List OutputRow × Bool :=
  runLoop initState chunks

/-! Concrete inputs used by witnesses and counterexamples. -/

/-- A 3824-byte all-zero chunk: shorter than a full record, yet long enough
for the 34 sub-record slices read by the code. -/
def zeros3824 : List Nat := List.replicate 3824 0

/-- A full-size all-zero block. -/
def zeroBlock : List Nat := List.replicate 7184 0

/-- A full-size block whose first sub-record has address byte 40 and mode
byte 1. -/
def badAddrBlock : List Nat :=
  List.replicate 16 0 ++ 40 :: 1 :: List.replicate 7166 0

/-- A full-size block whose first sub-record has address byte 35 and mode
byte 1. -/
def badAddrBlock35 : List Nat :=
  List.replicate 16 0 ++ 35 :: 1 :: List.replicate 7166 0

/-- An aggregator state 59 blocks into a window. -/
def st59 : AggState :=
  { mill_values := List.replicate 34 0, mill_counts := List.replicate 34 0,
    second_count := 59 }

/-- The row emitted for an all-zero 60th block fed to `st59`. -/
def row59 : OutputRow :=
  { time := timeLabel 0 0 0 0 0, vals := List.replicate 34 none }

/-- A state with stale accumulator content but `second_count = 0`. -/
def dirtyState : AggState :=
  { mill_values := List.replicate 34 5, mill_counts := List.replicate 34 7,
    second_count := 0 }

/-- A 112-byte sub-record with address 5, mode 1 and all-zero samples. -/
def subFive : List Nat := 5 :: 1 :: List.replicate 110 0

/-- A 112-byte sub-record with address 0, mode 1 and all-zero samples. -/
def subAddr0 : List Nat := 0 :: 1 :: List.replicate 110 0

/-- An all-zero 112-byte sub-record (mode 0, hence skipped). -/
def subZero : List Nat := List.replicate 112 0

/-- A 112-byte sub-record with address 5, mode 1, zero status and rain
bytes, whose first sample pair is the bytes `(1, 0)` — decoded as 1 by the
code's native little-endian order but as 256 by the documented big-endian
order; all remaining bytes zero. -/
def sBug : List Nat :=
  5 :: 1 :: 0 :: 0 :: 0 :: 0 :: 0 :: 0 :: 0 :: 0 :: 1 :: 0 :: List.replicate 100 0

/-- A full-size block that differs from `zeroBlock` only in byte 0. -/
def block137 : List Nat := 137 :: List.replicate 7183 0

/-! Basic facts about the decoding helpers. -/

theorem getD_replicate_self {α : Type} (n i : Nat) (a : α) :
    (List.replicate n a).getD i a = a := by
  simp only [List.getD_eq_getElem?_getD, List.getElem?_replicate]
  split <;> rfl

theorem length_timeSlice (c : List Nat) :
    (timeSlice c).length = min 6 (c.length - 4) := by
  simp [timeSlice]

theorem length_subSlice (c : List Nat) (i : Nat) :
    (subSlice c i).length = min 112 (c.length - 16 - 112 * i) := by
  simp [subSlice]
  omega

theorem getD_timeSlice (c : List Nat) (j : Nat) (hj : j < 6) :
    (timeSlice c).getD j 0 = c.getD (4 + j) 0 := by
  simp [timeSlice, List.getD_eq_getElem?_getD, List.getElem?_take_of_lt hj,
    List.getElem?_drop]

theorem unpackTime_ok (c : List Nat) (h : 10 ≤ c.length) :
    unpackTime c = .ok (c.getD 4 0, c.getD 5 0, c.getD 6 0,
                        c.getD 7 0, c.getD 8 0, c.getD 9 0) := by
  have hlen : (timeSlice c).length = 6 := by rw [length_timeSlice]; omega
  rw [unpackTime, if_pos hlen, getD_timeSlice c 0 (by omega),
    getD_timeSlice c 1 (by omega), getD_timeSlice c 2 (by omega),
    getD_timeSlice c 3 (by omega), getD_timeSlice c 4 (by omega),
    getD_timeSlice c 5 (by omega)]

theorem unpackTime_err (c : List Nat) (h : c.length < 10) :
    unpackTime c = .error () := by
  have hlen : (timeSlice c).length ≠ 6 := by rw [length_timeSlice]; omega
  rw [unpackTime, if_neg hlen]

theorem samples16_length : ∀ l : List Nat, (samples16 l).length = l.length / 2
  | [] => rfl
  | [_] => by simp [samples16]
  | _ :: _ :: rest => by
    simp [samples16, samples16_length rest]
    omega

theorem unpackSub_ok (s : List Nat) (h : s.length = 112) :
    unpackSub s = .ok (s.getD 0 0, s.getD 1 0, s.getD 9 0,
                       samples16 ((s.drop 10).take 100)) := by
  rw [unpackSub, if_pos h]

theorem unpackSub_err (s : List Nat) (h : s.length ≠ 112) :
    unpackSub s = .error () := by
  rw [unpackSub, if_neg h]

theorem unpackSub_samples (s : List Nat) (a m rg : Nat) (smp : List Int)
    (hu : unpackSub s = .ok (a, m, rg, smp)) : smp.length = 50 := by
  by_cases h : s.length = 112
  · rw [unpackSub_ok s h] at hu
    have hsmp : smp = samples16 ((s.drop 10).take 100) := by
      injection hu with hu1
      exact (congrArg (fun p => p.2.2.2) hu1).symm
    rw [hsmp, samples16_length]
    simp [h]
  · rw [unpackSub_err s h] at hu
    cases hu

theorem pyIndex_addr (a : Nat) (ha : a ≤ 34) :
    pyIndex 34 ((a : Int) - 1) = .ok (if a = 0 then 33 else a - 1) := by
  cases a with
  | zero => decide
  | succ n =>
    have h0 : (0 : Int) ≤ ((n + 1 : Nat) : Int) - 1 := by push_cast; omega
    have h1 : ((n + 1 : Nat) : Int) - 1 < ((34 : Nat) : Int) := by push_cast; omega
    rw [pyIndex, if_pos h0, if_pos h1, if_neg (Nat.succ_ne_zero n)]
    congr 1
    omega

theorem pyIndex_addr_err (a : Nat) (ha : 34 < a) :
    pyIndex 34 ((a : Int) - 1) = .error () := by
  have h0 : (0 : Int) ≤ ((a : Nat) : Int) - 1 := by omega
  have h1 : ¬ (((a : Nat) : Int) - 1 < ((34 : Nat) : Int)) := by push_cast; omega
  rw [pyIndex, if_pos h0, if_neg h1]

/-! Behaviour of `processSub` and `processAll`. -/

theorem processSub_skip (st : AggState) (s : List Nat) (a m rg : Nat) (smp : List Int)
    (hu : unpackSub s = .ok (a, m, rg, smp)) (hm : m ≠ 1) :
    processSub st s = .ok st := by
  simp [processSub, hu, hm]

theorem processSub_mode1 (st : AggState) (s : List Nat) (a rg : Nat) (smp : List Int) (j : Nat)
    (hu : unpackSub s = .ok (a, 1, rg, smp))
    (hj : pyIndex 34 ((a : Int) - 1) = .ok j) :
    processSub st s = .ok { st with
      mill_values := st.mill_values.set j
        (st.mill_values.getD j 0 + (smp.sum : ℚ) / (smp.length : ℚ)),
      mill_counts := st.mill_counts.set j
        (st.mill_counts.getD j 0 + 1) } := by
  simp [processSub, hu, hj]

theorem processSub_mode1_err (st : AggState) (s : List Nat) (a rg : Nat) (smp : List Int)
    (hu : unpackSub s = .ok (a, 1, rg, smp))
    (hj : pyIndex 34 ((a : Int) - 1) = .error ()) :
    processSub st s = .error () := by
  simp [processSub, hu, hj]

theorem processSub_len_err (st : AggState) (s : List Nat) (h : s.length ≠ 112) :
    processSub st s = .error () := by
  simp [processSub, unpackSub_err s h]

theorem processSub_ok_of_good (st : AggState) (s : List Nat) (h112 : s.length = 112)
    (hgood : s.getD 1 0 = 1 → s.getD 0 0 ≤ 34) :
    ∃ st1, processSub st s = .ok st1 := by
  by_cases hm : s.getD 1 0 = 1
  · have hu : unpackSub s = .ok (s.getD 0 0, 1, s.getD 9 0,
        samples16 ((s.drop 10).take 100)) := by
      rw [unpackSub_ok s h112, hm]
    have hp := processSub_mode1 st s (s.getD 0 0) (s.getD 9 0)
      (samples16 ((s.drop 10).take 100))
      (if s.getD 0 0 = 0 then 33 else s.getD 0 0 - 1) hu
      (pyIndex_addr _ (hgood hm))
    exact ⟨_, hp⟩
  · exact ⟨st, processSub_skip st s _ _ _ _ (unpackSub_ok s h112) hm⟩

theorem processSub_preserves (st st1 : AggState) (s : List Nat)
    (h : processSub st s = .ok st1) :
    st1.second_count = st.second_count ∧
    st1.mill_values.length = st.mill_values.length ∧
    st1.mill_counts.length = st.mill_counts.length := by
  rw [processSub] at h
  cases hu : unpackSub s with
  | error e => rw [hu] at h; cases h
  | ok q =>
    obtain ⟨a, m, rg, smp⟩ := q
    rw [hu] at h
    by_cases hm : m ≠ 1
    · simp only [if_pos hm] at h
      cases h
      exact ⟨rfl, rfl, rfl⟩
    · simp only [if_neg hm] at h
      cases hj : pyIndex 34 ((a : Int) - 1) with
      | error e => rw [hj] at h; cases h
      | ok j =>
        rw [hj] at h
        cases h
        refine ⟨rfl, ?_, ?_⟩ <;> simp

theorem processAll_preserves (l : List (List Nat)) :
    ∀ st st1 : AggState, processAll st l = .ok st1 →
      st1.second_count = st.second_count ∧
      st1.mill_values.length = st.mill_values.length ∧
      st1.mill_counts.length = st.mill_counts.length := by
  induction l with
  | nil =>
    intro st st1 h
    cases h
    exact ⟨rfl, rfl, rfl⟩
  | cons s rest ih =>
    intro st st1 h
    rw [processAll] at h
    cases hs : processSub st s with
    | error e => rw [hs] at h; cases h
    | ok stm =>
      rw [hs] at h
      obtain ⟨h1, h2, h3⟩ := processSub_preserves st stm s hs
      obtain ⟨g1, g2, g3⟩ := ih stm st1 h
      exact ⟨g1.trans h1, g2.trans h2, g3.trans h3⟩

theorem processAll_ok_of_good (l : List (List Nat)) :
    ∀ st : AggState,
      (∀ s ∈ l, s.length = 112 ∧ (s.getD 1 0 = 1 → s.getD 0 0 ≤ 34)) →
      ∃ st1, processAll st l = .ok st1 := by
  induction l with
  | nil => intro st _; exact ⟨st, rfl⟩
  | cons s rest ih =>
    intro st hgood
    obtain ⟨h112, hg⟩ := hgood s (List.mem_cons_self s rest)
    obtain ⟨stm, hstm⟩ := processSub_ok_of_good st s h112 hg
    obtain ⟨st1, hst1⟩ := ih stm (fun t ht => hgood t (List.mem_cons_of_mem s ht))
    refine ⟨st1, ?_⟩
    rw [processAll, hstm]
    exact hst1

theorem processAll_err_of_mem (l : List (List Nat)) (s : List Nat) (hs : s ∈ l)
    (herr : ∀ st : AggState, processSub st s = .error ()) :
    ∀ st : AggState, processAll st l = .error () := by
  induction l with
  | nil => cases hs
  | cons t rest ih =>
    intro st
    rw [processAll]
    rcases List.mem_cons.mp hs with rfl | hmem
    · rw [herr st]
    · cases ht : processSub st t with
      | error e => rfl
      | ok stm => exact ih hmem stm

theorem processAll_of_skips (l : List (List Nat))
    (h : ∀ s ∈ l, ∀ st : AggState, processSub st s = .ok st) :
    ∀ st : AggState, processAll st l = .ok st := by
  induction l with
  | nil => intro st; rfl
  | cons s rest ih =>
    intro st
    rw [processAll, h s (List.mem_cons_self s rest) st]
    exact ih (fun t ht => h t (List.mem_cons_of_mem s ht)) st

/-! Behaviour of `stepChunk` and `runLoop`. -/

theorem sc_resetIf (st : AggState) :
    (if st.second_count = 0 then resetAccum st else st).second_count = st.second_count := by
  split <;> rfl

theorem stepChunk_eq_of (st : AggState) (c : List Nat) (y mo d hr mi s2 : Nat)
    (st2 : AggState)
    (hu : unpackTime c = .ok (y, mo, d, hr, mi, s2))
    (hp : processAll (if st.second_count = 0 then resetAccum st else st)
        ((List.range 34).map (subSlice c)) = .ok st2) :
    stepChunk st c =
      if st2.second_count + 1 = 60 then
        .ok ({ st2 with second_count := 0 },
             some ⟨timeLabel y mo d hr mi, emitVals st2⟩)
      else
        .ok ({ st2 with second_count := st2.second_count + 1 }, none) := by
  simp only [stepChunk, hu, hp]
  split <;> rfl

theorem stepChunk_err_time (st : AggState) (c : List Nat)
    (hu : unpackTime c = .error ()) : stepChunk st c = .error () := by
  simp only [stepChunk, hu]

theorem stepChunk_err_all (st : AggState) (c : List Nat) (y mo d hr mi s2 : Nat)
    (hu : unpackTime c = .ok (y, mo, d, hr, mi, s2))
    (hp : processAll (if st.second_count = 0 then resetAccum st else st)
        ((List.range 34).map (subSlice c)) = .error ()) :
    stepChunk st c = .error () := by
  simp only [stepChunk, hu, hp]

theorem stepChunk_ok_of_good (st : AggState) (c : List Nat) (hlen : c.length = 7184)
    (hgood : ∀ i, i < 34 →
      (subSlice c i).getD 1 0 = 1 → (subSlice c i).getD 0 0 ≤ 34) :
    ∃ st1 r, stepChunk st c = .ok (st1, r) ∧
      st1.second_count = (if st.second_count + 1 = 60 then 0 else st.second_count + 1) ∧
      (r.isSome = true ↔ st.second_count + 1 = 60) := by
  have hu := unpackTime_ok c (by omega)
  have hall : ∀ s ∈ (List.range 34).map (subSlice c),
      s.length = 112 ∧ (s.getD 1 0 = 1 → s.getD 0 0 ≤ 34) := by
    intro s hs
    obtain ⟨i, hi, rfl⟩ := List.mem_map.mp hs
    have hi34 : i < 34 := List.mem_range.mp hi
    refine ⟨?_, hgood i hi34⟩
    rw [length_subSlice]
    omega
  obtain ⟨st2, hp⟩ := processAll_ok_of_good _ _ hall
  have hsc2 : st2.second_count = st.second_count := by
    have h := (processAll_preserves _ _ _ hp).1
    rw [h, sc_resetIf]
  have heq := stepChunk_eq_of st c _ _ _ _ _ _ st2 hu hp
  rw [hsc2] at heq
  by_cases h60 : st.second_count + 1 = 60
  · rw [if_pos h60] at heq
    exact ⟨_, _, heq, by rw [if_pos h60], by simp [h60]⟩
  · rw [if_neg h60] at heq
    refine ⟨_, _, heq, ?_, by simp [h60]⟩
    rw [if_neg h60, ← hsc2]

theorem runLoop_cons_err (st : AggState) (c : List Nat) (rest : List (List Nat))
    (hc : ¬ c.length = 0) (h : stepChunk st c = .error ()) :
    runLoop st (c :: rest) = ([], false) := by
  rw [runLoop, if_neg hc, h]

theorem runLoop_cons_none (st st1 : AggState) (c : List Nat) (rest : List (List Nat))
    (hc : ¬ c.length = 0) (h : stepChunk st c = .ok (st1, none)) :
    runLoop st (c :: rest) = runLoop st1 rest := by
  rw [runLoop, if_neg hc, h]

theorem runLoop_cons_some (st st1 : AggState) (c : List Nat) (rest : List (List Nat))
    (row : OutputRow)
    (hc : ¬ c.length = 0) (h : stepChunk st c = .ok (st1, some row)) :
    runLoop st (c :: rest) = (row :: (runLoop st1 rest).1, (runLoop st1 rest).2) := by
  rw [runLoop, if_neg hc, h]

theorem runLoop_count (chunks : List (List Nat)) :
    ∀ st : AggState, st.second_count < 60 →
      (∀ c ∈ chunks, c.length = 7184) →
      (∀ c ∈ chunks, ∀ i, i < 34 →
        (subSlice c i).getD 1 0 = 1 → (subSlice c i).getD 0 0 ≤ 34) →
      (runLoop st chunks).1.length = (st.second_count + chunks.length) / 60 ∧
      (runLoop st chunks).2 = true := by
  induction chunks with
  | nil =>
    intro st hst _ _
    rw [runLoop]
    constructor
    · show 0 = (st.second_count + 0) / 60
      omega
    · rfl
  | cons c rest ih =>
    intro st hst hlen hgood
    have hc : c.length = 7184 := hlen c (List.mem_cons_self c rest)
    obtain ⟨st1, r, hstep, hsc, hsome⟩ :=
      stepChunk_ok_of_good st c hc (hgood c (List.mem_cons_self c rest))
    have hlen1 : ∀ t ∈ rest, t.length = 7184 :=
      fun t ht => hlen t (List.mem_cons_of_mem c ht)
    have hgood1 : ∀ t ∈ rest, ∀ i, i < 34 →
        (subSlice t i).getD 1 0 = 1 → (subSlice t i).getD 0 0 ≤ 34 :=
      fun t ht => hgood t (List.mem_cons_of_mem c ht)
    by_cases h60 : st.second_count + 1 = 60
    · obtain ⟨row, hrow⟩ := Option.isSome_iff_exists.mp (hsome.mpr h60)
      subst hrow
      have hsc1 : st1.second_count = 0 := by rw [hsc, if_pos h60]
      obtain ⟨ihl, ihb⟩ := ih st1 (by omega) hlen1 hgood1
      rw [runLoop_cons_some st st1 c rest row (by omega) hstep]
      constructor
      · show (row :: (runLoop st1 rest).1).length = (st.second_count + (rest.length + 1)) / 60
        rw [List.length_cons, ihl, hsc1]
        omega
      · exact ihb
    · have hrnone : r = none := by
        cases r with
        | none => rfl
        | some row => exact absurd (hsome.mp rfl) h60
      subst hrnone
      have hsc1 : st1.second_count = st.second_count + 1 := by rw [hsc, if_neg h60]
      obtain ⟨ihl, ihb⟩ := ih st1 (by omega) hlen1 hgood1
      rw [runLoop_cons_none st st1 c rest (by omega) hstep]
      constructor
      · show (runLoop st1 rest).1.length = (st.second_count + (rest.length + 1)) / 60
        rw [ihl, hsc1]
        omega
      · exact ihb

/-! Symbolic evaluation on the concrete inputs. -/

theorem subSlice_replicate (n i : Nat) :
    subSlice (List.replicate n (0 : Nat)) i =
      List.replicate (min 112 (n - 16 - 112 * i)) (0 : Nat) := by
  simp [subSlice]

theorem unpackTime_zeroRep (n : Nat) (h : 10 ≤ n) :
    unpackTime (List.replicate n (0 : Nat)) = .ok (0, 0, 0, 0, 0, 0) := by
  rw [unpackTime_ok _ (by simpa using h)]
  simp [getD_replicate_self]

theorem processSub_rep112 (st : AggState) :
    processSub st (List.replicate 112 (0 : Nat)) = .ok st := by
  have hu := unpackSub_ok (List.replicate 112 (0 : Nat)) (by simp)
  simp only [getD_replicate_self] at hu
  exact processSub_skip st _ 0 0 0 _ hu (by decide)

theorem processAll_zeroRep (st : AggState) (n : Nat) (hbig : 3824 ≤ n) :
    processAll st ((List.range 34).map (subSlice (List.replicate n (0 : Nat)))) = .ok st := by
  apply processAll_of_skips
  intro s hs st1
  obtain ⟨i, hi, rfl⟩ := List.mem_map.mp hs
  have hi34 := List.mem_range.mp hi
  rw [subSlice_replicate]
  have hmin : min 112 (n - 16 - 112 * i) = 112 := by omega
  rw [hmin]
  exact processSub_rep112 st1

theorem stepChunk_init_z3824 :
    stepChunk initState zeros3824 = .ok ({ initState with second_count := 1 }, none) := by
  have hu : unpackTime zeros3824 = .ok (0, 0, 0, 0, 0, 0) :=
    unpackTime_zeroRep 3824 (by omega)
  have hif : (if initState.second_count = 0 then resetAccum initState else initState) =
      initState := rfl
  have hp : processAll (if initState.second_count = 0 then resetAccum initState else initState)
      ((List.range 34).map (subSlice zeros3824)) = .ok initState := by
    rw [hif]
    exact processAll_zeroRep initState 3824 (by omega)
  have heq := stepChunk_eq_of initState zeros3824 0 0 0 0 0 0 initState hu hp
  rw [if_neg (by decide)] at heq
  exact heq

theorem emitVals_st59 : emitVals st59 = List.replicate 34 none := by
  have h1 : st59.mill_values = List.replicate 34 0 := rfl
  have h2 : st59.mill_counts = List.replicate 34 0 := rfl
  have h3 : List.map (fun i =>
      if 0 < (List.replicate 34 (0 : ℚ)).getD i 0
      then some ((List.replicate 34 (0 : ℚ)).getD i 0 /
                 (List.replicate 34 (0 : ℚ)).getD i 0)
      else none) (List.range 34) =
      List.map (fun _ => (none : Option ℚ)) (List.range 34) := by
    apply List.map_congr_left
    intro i _
    rw [getD_replicate_self]
    norm_num
  rw [emitVals, h1, h2, List.length_replicate, h3, List.map_const', List.length_range]

theorem stepChunk_st59_z3824 :
    stepChunk st59 zeros3824 = .ok (initState, some row59) := by
  have hu : unpackTime zeros3824 = .ok (0, 0, 0, 0, 0, 0) :=
    unpackTime_zeroRep 3824 (by omega)
  have hif : (if st59.second_count = 0 then resetAccum st59 else st59) = st59 := rfl
  have hp : processAll (if st59.second_count = 0 then resetAccum st59 else st59)
      ((List.range 34).map (subSlice zeros3824)) = .ok st59 := by
    rw [hif]
    exact processAll_zeroRep st59 3824 (by omega)
  have heq := stepChunk_eq_of st59 zeros3824 0 0 0 0 0 0 st59 hu hp
  rw [if_pos (by decide)] at heq
  rw [heq, emitVals_st59]
  rfl

theorem subSlice0_addrBlock (a : Nat) :
    subSlice (List.replicate 16 0 ++ a :: 1 :: List.replicate 7166 0) 0 =
      a :: 1 :: List.replicate 110 (0 : Nat) := by
  have hsplit : List.replicate 7166 (0 : Nat) =
      List.replicate 110 0 ++ List.replicate 7056 0 := by
    rw [← List.replicate_add]
  have hassoc : a :: 1 :: (List.replicate 110 (0 : Nat) ++ List.replicate 7056 0) =
      (a :: 1 :: List.replicate 110 0) ++ List.replicate 7056 0 := rfl
  rw [subSlice, List.drop_left' (List.length_replicate 16 0), Nat.mul_zero,
    List.drop_zero, hsplit, hassoc,
    List.take_left' (by simp only [List.length_cons, List.length_replicate])]

theorem stepChunk_badAddr (st : AggState) (a : Nat) (ha : 34 < a) :
    stepChunk st (List.replicate 16 0 ++ a :: 1 :: List.replicate 7166 0) = .error () := by
  set c : List Nat := List.replicate 16 0 ++ a :: 1 :: List.replicate 7166 0 with hc
  have hclen : c.length = 7184 := by
    rw [hc]
    simp only [List.length_append, List.length_cons, List.length_replicate]
  have hu := unpackTime_ok c (by omega)
  have hsub : subSlice c 0 = a :: 1 :: List.replicate 110 (0 : Nat) :=
    subSlice0_addrBlock a
  have herr : ∀ st1 : AggState, processSub st1 (subSlice c 0) = .error () := by
    intro st1
    rw [hsub]
    have hu2 := unpackSub_ok (a :: 1 :: List.replicate 110 (0 : Nat))
      (by simp only [List.length_cons, List.length_replicate])
    simp only [List.getD_cons_zero, List.getD_cons_succ] at hu2
    exact processSub_mode1_err st1 _ a _ _ hu2 (pyIndex_addr_err a ha)
  have hmem : subSlice c 0 ∈ (List.range 34).map (subSlice c) :=
    List.mem_map_of_mem (subSlice c) (by simp)
  have hp := processAll_err_of_mem _ _ hmem herr
    (if st.second_count = 0 then resetAccum st else st)
  exact stepChunk_err_all st c _ _ _ _ _ _ hu hp

theorem translate_badAddrBlock : translate_KSC [badAddrBlock] = ([], false) := by
  rw [translate_KSC]
  apply runLoop_cons_err
  · simp only [badAddrBlock, List.length_append, List.length_cons,
      List.length_replicate]
    omega
  · exact stepChunk_badAddr initState 40 (by omega)

theorem getD_replicate_lt {α : Type} (n i : Nat) (a d : α) (h : i < n) :
    (List.replicate n a).getD i d = a := by
  rw [List.getD_eq_getElem?_getD, List.getElem?_replicate_of_lt h]
  rfl

theorem unpackTime_rep (n av : Nat) (h : 10 ≤ n) :
    unpackTime (List.replicate n av) = .ok (av, av, av, av, av, av) := by
  rw [unpackTime_ok _ (by rw [List.length_replicate]; omega),
    getD_replicate_lt n 4 av 0 (by omega), getD_replicate_lt n 5 av 0 (by omega),
    getD_replicate_lt n 6 av 0 (by omega), getD_replicate_lt n 7 av 0 (by omega),
    getD_replicate_lt n 8 av 0 (by omega), getD_replicate_lt n 9 av 0 (by omega)]

/-! The claims. -/

/-- C1 (counterexample): a non-empty raw block whose byte length is 3824 —
hence not 7184 — is not rejected by the decode step: the iteration
succeeds, produces a (row-less) result and advances the block counter from
0 to 1, contradicting the claim that every block of length other than 7184
is rejected with `MalformedBlock` without advancing the counter. -/
theorem C1_counterexample :
    zeros3824.length ≠ 7184 ∧
    stepChunk initState zeros3824 = .ok ({ initState with second_count := 1 }, none) := by
  constructor
  · rw [zeros3824, List.length_replicate]
    omega
  · exact stepChunk_init_z3824

/-- C1 (amended): `translate_KSC` performs no explicit length check at all.
A non-empty block shorter than 3824 bytes (the 16-byte header plus the 34
sub-records the code reads) makes `struct.unpack` fail: the whole
translation aborts with an error, no row is produced and the block counter
is not advanced.  A block of 3824 bytes or more — any length, 7184 or not —
is decoded normally and advances the counter (shown by the
counterexample). -/
theorem C1_short_block_error (st : AggState) (c : List Nat)
    (h0 : 0 < c.length) (h : c.length < 3824) :
    stepChunk st c = .error () ∧
    ∀ rest : List (List Nat), runLoop st (c :: rest) = ([], false) := by
  have herr : stepChunk st c = .error () := by
    by_cases h10 : c.length < 10
    · exact stepChunk_err_time st c (unpackTime_err c h10)
    · have hu := unpackTime_ok c (by omega)
      have hbad : (subSlice c 33).length ≠ 112 := by
        rw [length_subSlice]
        omega
      have hps : ∀ st1 : AggState, processSub st1 (subSlice c 33) = .error () :=
        fun st1 => processSub_len_err st1 _ hbad
      have hmem : subSlice c 33 ∈ (List.range 34).map (subSlice c) :=
        List.mem_map_of_mem (subSlice c) (by simp)
      exact stepChunk_err_all st c _ _ _ _ _ _ hu
        (processAll_err_of_mem _ _ hmem hps _)
  exact ⟨herr, fun rest => runLoop_cons_err st c rest (by omega) herr⟩

theorem C1_witness :
    0 < (List.replicate 100 (0 : Nat)).length ∧
    stepChunk initState (List.replicate 100 0) = .error () ∧
    runLoop initState [List.replicate 100 0] = ([], false) := by
  have h := C1_short_block_error initState (List.replicate 100 0)
    (by rw [List.length_replicate]; omega) (by rw [List.length_replicate]; omega)
  exact ⟨by rw [List.length_replicate]; omega, h.1, h.2 []⟩

/-- C2 (counterexample): a block of exactly 7184 bytes whose first
sub-record has mode byte 1 and address byte 40 makes the decode-and-
aggregate step raise an `IndexError` (`mill_values[39]` on a 34-element
list), aborting the translation — content alone, not only a block-size
mismatch, can produce a hard rejection. -/
theorem C2_counterexample :
    badAddrBlock.length = 7184 ∧ translate_KSC [badAddrBlock] = ([], false) := by
  refine ⟨?_, translate_badAddrBlock⟩
  simp only [badAddrBlock, List.length_append, List.length_cons, List.length_replicate]

/-- C2 (amended): a block of exactly 7184 bytes is decoded and aggregated
without any exception provided every one of its first 34 sub-records with
mode byte 1 has an address byte at most 34; a mode-1 sub-record with
address byte above 34 raises an `IndexError` (shown by the
counterexample). -/
theorem C2_no_exception (st : AggState) (c : List Nat) (hlen : c.length = 7184)
    (hgood : ∀ i, i < 34 →
      (subSlice c i).getD 1 0 = 1 → (subSlice c i).getD 0 0 ≤ 34) :
    ∃ st1 r, stepChunk st c = .ok (st1, r) := by
  obtain ⟨st1, r, hr, -, -⟩ := stepChunk_ok_of_good st c hlen hgood
  exact ⟨st1, r, hr⟩

theorem C2_witness : ∃ st1 r, stepChunk initState zeroBlock = .ok (st1, r) := by
  apply C2_no_exception initState zeroBlock (by rw [zeroBlock, List.length_replicate])
  intro i hi hmode
  rw [zeroBlock, subSlice_replicate, getD_replicate_self] at hmode
  exact absurd hmode (by decide)

/-- For every sub-record accepted as valid (mode byte 1), the scalar value
added to the station's accumulator equals the arithmetic mean of the 50
samples the code decodes (in its native little-endian order): the sample
list produced by the unpack has length 50 and the accumulator receives
exactly `sum / 50`.  General helper behind the C4 analysis. -/
theorem processSub_adds_mean (st : AggState) (s : List Nat) (a m rg : Nat)
    (smp : List Int) (st1 : AggState)
    (hu : unpackSub s = .ok (a, m, rg, smp)) (hm : m = 1)
    (hp : processSub st s = .ok st1) :
    smp.length = 50 ∧
    ∃ j, pyIndex 34 ((a : Int) - 1) = .ok j ∧
      st1.mill_values = st.mill_values.set j
        (st.mill_values.getD j 0 + (smp.sum : ℚ) / 50) ∧
      st1.mill_counts = st.mill_counts.set j (st.mill_counts.getD j 0 + 1) := by
  subst hm
  have h50 := unpackSub_samples s a 1 rg smp hu
  refine ⟨h50, ?_⟩
  cases hj : pyIndex 34 ((a : Int) - 1) with
  | error e =>
    cases e
    rw [processSub_mode1_err st s a rg smp hu hj] at hp
    cases hp
  | ok j =>
    rw [processSub_mode1 st s a rg smp j hu hj] at hp
    injection hp with hp1
    subst hp1
    refine ⟨j, rfl, ?_, rfl⟩
    show st.mill_values.set j
        (st.mill_values.getD j 0 + (smp.sum : ℚ) / (smp.length : ℚ)) = _
    rw [h50]
    norm_num

/-- C4 (code bug): the claim — and the source's own format documentation,
which declares the sample data "Motorola byte order" — take the value
added to the accumulator to be the mean of the 50 big-endian samples, but
the format string `"BB7xB50h2x"` has no byte-order prefix, so the code
decodes the samples in native little-endian order.  On the sub-record
`sBug`, whose first sample bytes are `(1, 0)`, the code adds `1/50`
(little-endian sample value 1) while the documented big-endian decoding
gives mean `256/50`: the code contradicts its own documentation. -/
theorem C4_byte_order_bug :
    samples16 ((sBug.drop 10).take 100) = 1 :: List.replicate 49 0 ∧
    samples16be ((sBug.drop 10).take 100) = 256 :: List.replicate 49 0 ∧
    processSub initState sBug = .ok
      { mill_values := (List.replicate 34 (0 : ℚ)).set 4 (1 / 50),
        mill_counts := (List.replicate 34 (0 : ℚ)).set 4 1,
        second_count := 0 } ∧
    ((samples16 ((sBug.drop 10).take 100)).sum : ℚ) / 50 ≠
      ((samples16be ((sBug.drop 10).take 100)).sum : ℚ) / 50 := by
  have h1 : samples16 ((sBug.drop 10).take 100) = 1 :: List.replicate 49 0 := by
    decide
  have h2 : samples16be ((sBug.drop 10).take 100) = 256 :: List.replicate 49 0 := by
    decide
  have hsum : (samples16 ((sBug.drop 10).take 100)).sum = 1 := by decide
  have hsumbe : (samples16be ((sBug.drop 10).take 100)).sum = 256 := by decide
  have hlen : (samples16 ((sBug.drop 10).take 100)).length = 50 := by decide
  have hu : unpackSub sBug = .ok (5, 1, 0, samples16 ((sBug.drop 10).take 100)) := by
    decide
  have hj : pyIndex 34 (((5 : Nat) : Int) - 1) = .ok 4 := by decide
  have hp := processSub_mode1 initState sBug 5 0
    (samples16 ((sBug.drop 10).take 100)) 4 hu hj
  refine ⟨h1, h2, ?_, ?_⟩
  · rw [hp]
    have hval : initState.mill_values.getD 4 0 +
        ((samples16 ((sBug.drop 10).take 100)).sum : ℚ) /
          ((samples16 ((sBug.drop 10).take 100)).length : ℚ) = 1 / 50 := by
      rw [hsum, hlen,
        show initState.mill_values = List.replicate 34 (0 : ℚ) from rfl,
        getD_replicate_self]
      norm_num
    have hcnt : initState.mill_counts.getD 4 0 + (1 : ℚ) = 1 := by
      rw [show initState.mill_counts = List.replicate 34 (0 : ℚ) from rfl,
        getD_replicate_self]
      norm_num
    rw [hval, hcnt]
    rfl
  · rw [hsum, hsumbe]
    norm_num

/-- C5 (counterexample): the claim's example "89 maps to 1989" is false on
the code: 89 is below the pivot 90, so the code reconstructs `89 + 2000 =
2089` — exactly as the claim's own general rule `2000+y when y < 90`
demands. -/
theorem C5_counterexample : fixYear 89 = 2089 ∧ fixYear 89 ≠ 1989 := by
  constructor <;> decide

/-- C5 (amended): the two-digit year is read from block byte 4 (the first
byte of slice `[4..10)`), and the reconstructed year is `2000 + y` for
`y < 90` and `1900 + y` otherwise; in particular 96 maps to 1996, 10 to
2010, 89 to 2089 (not 1989 — it is below the pivot), and the boundary
value 90 to 1990. -/
theorem C5_year_pivot :
    (∀ c y mo d hr mi s2, unpackTime c = .ok (y, mo, d, hr, mi, s2) →
      y = c.getD 4 0) ∧
    (∀ y, y < 90 → fixYear y = 2000 + y) ∧
    (∀ y, 90 ≤ y → fixYear y = 1900 + y) ∧
    fixYear 96 = 1996 ∧ fixYear 10 = 2010 ∧ fixYear 89 = 2089 ∧ fixYear 90 = 1990 := by
  refine ⟨?_, ?_, ?_, by decide, by decide, by decide, by decide⟩
  · intro c y mo d hr mi s2 h
    rw [unpackTime] at h
    split at h
    · injection h with h1
      have hy : (timeSlice c).getD 0 0 = y := congrArg Prod.fst h1
      rw [← hy, getD_timeSlice c 0 (by omega)]
    · cases h
  · intro y hy
    rw [fixYear, if_pos hy, Nat.add_comm]
  · intro y hy
    rw [fixYear, if_neg (by omega), Nat.add_comm]

theorem C5_witness :
    (7 : Nat) = (List.replicate 10 (7 : Nat)).getD 4 0 ∧ fixYear 50 = 2000 + 50 :=
  ⟨C5_year_pivot.1 (List.replicate 10 7) 7 7 7 7 7 7 (unpackTime_rep 10 7 (by omega)),
   C5_year_pivot.2.1 50 (by omega)⟩

/-- C6: a 112-byte sub-record whose mode byte is not 1 is skipped by
`continue`: the aggregation state is returned unchanged — no reading is
produced, nothing is added to any station's sum or count. -/
theorem C6_invalid_mode (st : AggState) (s : List Nat) (a m rg : Nat)
    (smp : List Int)
    (hu : unpackSub s = .ok (a, m, rg, smp)) (hm : m ≠ 1) :
    processSub st s = .ok st :=
  processSub_skip st s a m rg smp hu hm

theorem C6_witness : processSub initState subZero = .ok initState := by
  have hu := unpackSub_ok subZero (by rw [subZero, List.length_replicate])
  simp only [subZero, getD_replicate_self] at hu
  exact C6_invalid_mode initState subZero 0 0 0 _ hu (by decide)

theorem getD_set_self (l : List ℚ) (j : Nat) (v : ℚ) (h : j < l.length) :
    (l.set j v).getD j 0 = v := by
  rw [List.getD_eq_getElem _ _ (by simpa using h)]
  simp

/-- C3: the window closes exactly when the block counter reaches 60: a row
is emitted on a feed call iff the counter goes from 59 to 60, the emitted
row's 34 values are `sum/count` when `count > 0` and the not-a-number
sentinel (`none`) when `count = 0` — computed from the post-feed
accumulators — and the returned counter is 0; moreover a state whose
counter is 0 behaves exactly like the pristine initial state on the next
feed (the accumulators are re-created before they are read), so no row
carries anything over from the previous window. -/
theorem C3_window_close :
    (∀ st c st1 r, st.mill_values.length = 34 → stepChunk st c = .ok (st1, r) →
      ((r ≠ none ↔ st.second_count + 1 = 60) ∧
       ∀ row, r = some row →
         st1.second_count = 0 ∧
         row.vals = (List.range 34).map fun i =>
           if 0 < st1.mill_counts.getD i 0
           then some (st1.mill_values.getD i 0 / st1.mill_counts.getD i 0)
           else none)) ∧
    (∀ st c, st.second_count = 0 → stepChunk st c = stepChunk initState c) := by
  constructor
  · intro st c st1 r hl h
    cases hu : unpackTime c with
    | error e =>
      cases e
      rw [stepChunk_err_time st c hu] at h
      cases h
    | ok t =>
      obtain ⟨y, mo, d, hh, mi, s2⟩ := t
      cases hp : processAll (if st.second_count = 0 then resetAccum st else st)
          ((List.range 34).map (subSlice c)) with
      | error e =>
        cases e
        rw [stepChunk_err_all st c y mo d hh mi s2 hu hp] at h
        cases h
      | ok st2 =>
        have hpre := processAll_preserves _ _ _ hp
        have hsc2 : st2.second_count = st.second_count := by rw [hpre.1, sc_resetIf]
        have heq := stepChunk_eq_of st c y mo d hh mi s2 st2 hu hp
        rw [hsc2] at heq
        rw [heq] at h
        by_cases h60 : st.second_count + 1 = 60
        · rw [if_pos h60] at h
          injection h with h1
          have hst1 : ({ st2 with second_count := 0 } : AggState) = st1 :=
            congrArg Prod.fst h1
          have hro : (some ⟨timeLabel y mo d hh mi, emitVals st2⟩ : Option OutputRow) = r :=
            congrArg Prod.snd h1
          constructor
          · rw [← hro]
            simp [h60]
          · intro row hrow
            rw [← hro] at hrow
            have hrow2 : (⟨timeLabel y mo d hh mi, emitVals st2⟩ : OutputRow) = row := by
              injection hrow
            subst hrow2
            refine ⟨by rw [← hst1], ?_⟩
            rw [← hst1]
            show emitVals st2 = (List.range 34).map fun i =>
              if 0 < st2.mill_counts.getD i 0
              then some (st2.mill_values.getD i 0 / st2.mill_counts.getD i 0)
              else none
            have hlen2 : st2.mill_values.length = 34 := by
              rw [hpre.2.1, if_neg (by omega)]
              exact hl
            rw [emitVals, hlen2]
        · rw [if_neg h60] at h
          injection h with h1
          have hro : (none : Option OutputRow) = r := congrArg Prod.snd h1
          constructor
          · rw [← hro]
            simp [h60]
          · intro row hrow
            rw [← hro] at hrow
            exact Option.noConfusion hrow
  · intro st c h0
    have hsame : (if st.second_count = 0 then resetAccum st else st) =
        (if initState.second_count = 0 then resetAccum initState else initState) := by
      have h2 : (if initState.second_count = 0 then resetAccum initState
          else initState) = resetAccum initState := if_pos rfl
      rw [if_pos h0, h2]
      cases st with
      | mk v cnt sc =>
        have hsc : sc = 0 := h0
        subst hsc
        rfl
    simp only [stepChunk]
    rw [hsame]

theorem C3_witness :
    ((some row59 ≠ none ↔ st59.second_count + 1 = 60) ∧
     ∀ row, (some row59 : Option OutputRow) = some row →
       initState.second_count = 0 ∧
       row.vals = (List.range 34).map fun i =>
         if 0 < initState.mill_counts.getD i 0
         then some (initState.mill_values.getD i 0 / initState.mill_counts.getD i 0)
         else none) ∧
    stepChunk dirtyState zeros3824 = stepChunk initState zeros3824 :=
  ⟨C3_window_close.1 st59 zeros3824 initState (some row59)
     (by rw [show st59.mill_values = List.replicate 34 (0 : ℚ) from rfl,
         List.length_replicate])
     stepChunk_st59_z3824,
   C3_window_close.2 dirtyState zeros3824 rfl⟩

/-- C7 (counterexample): a stream of 60 full 7184-byte blocks does not
always produce `60 / 60 = 1` output row: when the first block carries a
mode-1 sub-record with address byte 35, the raised `IndexError` aborts the
translation and zero rows are emitted. -/
theorem C7_counterexample :
    (badAddrBlock35 :: List.replicate 59 zeroBlock).length = 60 ∧
    (∀ b ∈ badAddrBlock35 :: List.replicate 59 zeroBlock, b.length = 7184) ∧
    (translate_KSC (badAddrBlock35 :: List.replicate 59 zeroBlock)).1.length ≠
      (badAddrBlock35 :: List.replicate 59 zeroBlock).length / 60 := by
  have hbad : badAddrBlock35.length = 7184 := by
    simp only [badAddrBlock35, List.length_append, List.length_cons,
      List.length_replicate]
  refine ⟨?_, ?_, ?_⟩
  · rw [List.length_cons, List.length_replicate]
  · intro b hb
    rcases List.mem_cons.mp hb with rfl | hb2
    · exact hbad
    · rw [List.eq_of_mem_replicate hb2, zeroBlock, List.length_replicate]
  · have htr : translate_KSC (badAddrBlock35 :: List.replicate 59 zeroBlock) =
        ([], false) := by
      rw [translate_KSC]
      apply runLoop_cons_err
      · omega
      · exact stepChunk_badAddr initState 35 (by omega)
    rw [htr, List.length_cons, List.length_replicate]
    decide

/-- C7 (amended): for a stream of n full 7184-byte blocks in which every
mode-1 sub-record among the first 34 of each block has address byte at
most 34 (so that no `IndexError` aborts the run), exactly `n / 60` rows
are emitted — one per 60 blocks — and a final partial window of fewer
than 60 blocks is silently discarded, never flushed. -/
theorem C7_row_count (chunks : List (List Nat))
    (hlen : ∀ c ∈ chunks, c.length = 7184)
    (hgood : ∀ c ∈ chunks, ∀ i, i < 34 →
      (subSlice c i).getD 1 0 = 1 → (subSlice c i).getD 0 0 ≤ 34) :
    (translate_KSC chunks).1.length = chunks.length / 60 ∧
    (translate_KSC chunks).2 = true := by
  have h := runLoop_count chunks initState (by decide) hlen hgood
  rw [translate_KSC]
  refine ⟨?_, h.2⟩
  rw [h.1, show initState.second_count = 0 from rfl, Nat.zero_add]

theorem C7_witness :
    (translate_KSC [zeroBlock]).1.length = [zeroBlock].length / 60 ∧
    (translate_KSC [zeroBlock]).2 = true := by
  apply C7_row_count
  · intro c hc
    rw [List.mem_singleton.mp hc, zeroBlock, List.length_replicate]
  · intro c hc i hi hmode
    rw [List.mem_singleton.mp hc, zeroBlock, subSlice_replicate,
      getD_replicate_self] at hmode
    exact absurd hmode (by decide)

/-- C8: whenever a feed call emits a row, that call is the 60th of its
window (the counter stands at 59 on entry) and the row's timestamp label
is the string "YYYY-MM-DD HH:MM" built from the year, month, day, hour
and minute bytes of the very chunk fed in that call — the most recently
fed block, not the first of the window. -/
theorem C8_label_from_last (st : AggState) (c : List Nat) (st1 : AggState)
    (row : OutputRow) (h : stepChunk st c = .ok (st1, some row)) :
    st.second_count = 59 ∧
    ∃ y mo d hh mi s2, unpackTime c = .ok (y, mo, d, hh, mi, s2) ∧
      row.time = timeLabel y mo d hh mi := by
  cases hu : unpackTime c with
  | error e =>
    cases e
    rw [stepChunk_err_time st c hu] at h
    cases h
  | ok t =>
    obtain ⟨y, mo, d, hh, mi, s2⟩ := t
    cases hp : processAll (if st.second_count = 0 then resetAccum st else st)
        ((List.range 34).map (subSlice c)) with
    | error e =>
      cases e
      rw [stepChunk_err_all st c y mo d hh mi s2 hu hp] at h
      cases h
    | ok st2 =>
      have hsc2 : st2.second_count = st.second_count := by
        rw [(processAll_preserves _ _ _ hp).1, sc_resetIf]
      have heq := stepChunk_eq_of st c y mo d hh mi s2 st2 hu hp
      rw [hsc2] at heq
      rw [heq] at h
      by_cases h60 : st.second_count + 1 = 60
      · rw [if_pos h60] at h
        injection h with h1
        have hro : (some ⟨timeLabel y mo d hh mi, emitVals st2⟩ : Option OutputRow) =
            some row := congrArg Prod.snd h1
        have hrow : (⟨timeLabel y mo d hh mi, emitVals st2⟩ : OutputRow) = row := by
          injection hro
        refine ⟨by omega, y, mo, d, hh, mi, s2, rfl, ?_⟩
        rw [← hrow]
      · rw [if_neg h60] at h
        injection h with h1
        exact Option.noConfusion (congrArg Prod.snd h1)

theorem C8_witness :
    st59.second_count = 59 ∧
    ∃ y mo d hh mi s2, unpackTime zeros3824 = .ok (y, mo, d, hh, mi, s2) ∧
      row59.time = timeLabel y mo d hh mi :=
  C8_label_from_last st59 zeros3824 initState row59 stepChunk_st59_z3824

/-- C9: a mode-valid sub-record is folded into the accumulator selected by
its address byte, not by its position in the block: address a in [1,34]
updates slot a-1, address 0 updates slot 33 (Python's index -1 wraps to the
last element), and feeding two mode-valid sub-records with the same address
in one block increments that single station's count twice. -/
theorem C9_address_indexing (st : AggState) (s : List Nat) (a rg : Nat)
    (smp : List Int)
    (hu : unpackSub s = .ok (a, 1, rg, smp)) (ha : a ≤ 34)
    (hlen : st.mill_counts.length = 34) :
    pyIndex 34 ((a : Int) - 1) = .ok (if a = 0 then 33 else a - 1) ∧
    ∃ st1, processSub st s = .ok st1 ∧
      st1.mill_values = st.mill_values.set (if a = 0 then 33 else a - 1)
        (st.mill_values.getD (if a = 0 then 33 else a - 1) 0 +
          (smp.sum : ℚ) / (smp.length : ℚ)) ∧
      st1.mill_counts = st.mill_counts.set (if a = 0 then 33 else a - 1)
        (st.mill_counts.getD (if a = 0 then 33 else a - 1) 0 + 1) ∧
      st1.mill_counts.getD (if a = 0 then 33 else a - 1) 0 =
        st.mill_counts.getD (if a = 0 then 33 else a - 1) 0 + 1 ∧
      ∀ st2, processSub st1 s = .ok st2 →
        st2.mill_counts.getD (if a = 0 then 33 else a - 1) 0 =
          st.mill_counts.getD (if a = 0 then 33 else a - 1) 0 + 2 := by
  have hj := pyIndex_addr a ha
  set j := if a = 0 then 33 else a - 1 with hjdef
  have hjlt : j < 34 := by rw [hjdef]; split <;> omega
  refine ⟨hj, _, processSub_mode1 st s a rg smp j hu hj, rfl, rfl, ?_, ?_⟩
  · exact getD_set_self _ j _ (by rw [hlen]; exact hjlt)
  · intro st2 h2
    rw [processSub_mode1 _ s a rg smp j hu hj] at h2
    injection h2 with h2'
    subst h2'
    show ((st.mill_counts.set j (st.mill_counts.getD j 0 + 1)).set j
        ((st.mill_counts.set j (st.mill_counts.getD j 0 + 1)).getD j 0 + 1)).getD j 0 =
      st.mill_counts.getD j 0 + 2
    rw [getD_set_self _ j _ (by rw [List.length_set, hlen]; exact hjlt),
      getD_set_self _ j _ (by rw [hlen]; exact hjlt)]
    ring

theorem C9_witness : pyIndex 34 (((0 : Nat) : Int) - 1) = .ok 33 := by
  have hu := unpackSub_ok subAddr0
    (by rw [subAddr0]; simp only [List.length_cons, List.length_replicate])
  simp only [subAddr0, List.getD_cons_zero, List.getD_cons_succ] at hu
  rw [getD_replicate_self 110 7 0] at hu
  have h := C9_address_indexing initState subAddr0 0 0 _ hu (by omega)
    (by rw [show initState.mill_counts = List.replicate 34 (0 : ℚ) from rfl,
        List.length_replicate])
  simpa using h.1

theorem timeSlice_congr (c1 c2 : List Nat) (h1 : c1.length = 7184)
    (h2 : c2.length = 7184)
    (hag : ∀ i, 4 ≤ i → i < 10 → c1.getD i 0 = c2.getD i 0) :
    timeSlice c1 = timeSlice c2 := by
  apply List.ext_getElem
  · rw [length_timeSlice, length_timeSlice, h1, h2]
  · intro j hj1 hj2
    have hj : j < 6 := by rw [length_timeSlice, h1] at hj1; omega
    have hag2 := hag (4 + j) (by omega) (by omega)
    rw [List.getD_eq_getElem c1 0 (show 4 + j < c1.length by omega),
      List.getD_eq_getElem c2 0 (show 4 + j < c2.length by omega)] at hag2
    simp only [timeSlice, List.getElem_take, List.getElem_drop]
    exact hag2

theorem subSlice_congr (c1 c2 : List Nat) (h1 : c1.length = 7184)
    (h2 : c2.length = 7184)
    (hag : ∀ i, 16 ≤ i → i < 3824 → c1.getD i 0 = c2.getD i 0) :
    ∀ i ∈ List.range 34, subSlice c1 i = subSlice c2 i := by
  intro i hi
  have hi34 : i < 34 := List.mem_range.mp hi
  apply List.ext_getElem
  · rw [length_subSlice, length_subSlice, h1, h2]
  · intro j hj1 hj2
    have hj : j < 112 := by rw [length_subSlice, h1] at hj1; omega
    have hag2 := hag (16 + (112 * i + j)) (by omega) (by omega)
    rw [List.getD_eq_getElem c1 0 (show 16 + (112 * i + j) < c1.length by omega),
      List.getD_eq_getElem c2 0 (show 16 + (112 * i + j) < c2.length by omega)] at hag2
    simp only [subSlice, List.getElem_take, List.getElem_drop]
    exact hag2

/-- C10: decoding and aggregation read a block only through bytes [4..10)
(the time fields) and bytes [16..3824) (the 34 sub-record slices): two
7184-byte blocks that agree on those ranges produce the same step result —
the same timestamp, the same accumulator updates, the same emitted row if
any.  Bytes [0..4), [10..16) and [3824..7184), including everything beyond
the 34th sub-record, never influence the outcome. -/
theorem C10_unused_bytes (st : AggState) (c1 c2 : List Nat)
    (h1 : c1.length = 7184) (h2 : c2.length = 7184)
    (htime : ∀ i, 4 ≤ i → i < 10 → c1.getD i 0 = c2.getD i 0)
    (hdata : ∀ i, 16 ≤ i → i < 3824 → c1.getD i 0 = c2.getD i 0) :
    stepChunk st c1 = stepChunk st c2 := by
  have hts : timeSlice c1 = timeSlice c2 := timeSlice_congr c1 c2 h1 h2 htime
  have hmap : (List.range 34).map (subSlice c1) = (List.range 34).map (subSlice c2) :=
    List.map_congr_left (subSlice_congr c1 c2 h1 h2 hdata)
  have hu : unpackTime c1 = unpackTime c2 := by
    rw [unpackTime, unpackTime, hts]
  simp only [stepChunk]
  rw [hu, hmap]

theorem C10_witness : stepChunk initState zeroBlock = stepChunk initState block137 := by
  apply C10_unused_bytes initState zeroBlock block137
    (by rw [zeroBlock, List.length_replicate])
    (by simp only [block137, List.length_cons, List.length_replicate])
  · intro i h4 h10
    obtain ⟨k, rfl⟩ : ∃ k, i = k + 1 := ⟨i - 1, by omega⟩
    rw [zeroBlock, block137, List.getD_cons_succ,
      getD_replicate_lt 7184 (k + 1) 0 0 (by omega),
      getD_replicate_lt 7183 k 0 0 (by omega)]
  · intro i h16 h3824
    obtain ⟨k, rfl⟩ : ∃ k, i = k + 1 := ⟨i - 1, by omega⟩
    rw [zeroBlock, block137, List.getD_cons_succ,
      getD_replicate_lt 7184 (k + 1) 0 0 (by omega),
      getD_replicate_lt 7183 k 0 0 (by omega)]
